import Mathlib

/-!
Verification development for the MinerU parsing-orchestration subsystem
(docreader/parser/mineru_parser.py).

Modelling conventions:
* Python strings are modelled as lists of characters (Str := List Char),
  matching the sequence-of-code-points semantics of Python str.
* Fallible external calls (HTTP requests, JSON decoding, blob-store uploads,
  HTML-to-markdown conversion) are modelled as oracle values or functions
  returning Except Unit A, where .error () represents a raised exception.
  Quantifying over these oracles quantifies over all behaviours of the
  remote service and the blob store.
* Python dicts are modelled as association lists in insertion order;
  dictInsert mirrors Python dict assignment (update in place, or append).
* time.time() / time.sleep are modelled by an explicit elapsed-seconds
  counter threaded through the poll loop: each status request contributes
  its duration (dur) and each sleep contributes POLL_INTERVAL.
-/

abbrev Str := List Char

/-- Document model (docreader/models/document.py is not under src/).
Modelled from the spec: a Document is a pair of markdown content and a map
from rehosted URL to the original base64 payload; the empty Document
(content empty, images empty) is the failure sentinel. -/
structure Document where
  content : Str
  images : List (Str × Str)
deriving DecidableEq, Repr

def Document.empty : Document := ⟨[], []⟩

/-- Embeds StdMinerUParser.ping (mineru_parser.py lines 55-72): a single
probe request at construction; any raised exception yields false, success
yields true.  The probe outcome is the oracle argument. -/
def ping (probe : Except Unit Unit) : Bool :=
  match probe with
  | .ok _ => true
  | .error _ => false

/-- Python word character for the regex class used in base64_pattern.
ASCII approximation of the re module class (letters, digits, underscore). -/
def wordChar (c : Char) : Bool :=
  c.isAlphanum || c == '_'

def dataImagePrefix : Str := "data:image/".toList
def base64Marker : Str := ";base64,".toList

/-- Embeds re.match of base64_pattern (mineru_parser.py line 51):
the pattern data:image/(\w+);base64,(.*) anchored at the start.
Group 1 is the maximal nonempty run of word characters after data:image/
(greedy \w+ followed by the non-word character ; backtracks to exactly
this run); group 2 is everything after ;base64, up to the first newline
(Python . does not match a newline).  Returns none when the envelope is
malformed. -/
def base64Match (s : Str) : Option (Str × Str) :=
  if dataImagePrefix.isPrefixOf s then
    let rest := s.drop dataImagePrefix.length
    let ext := rest.takeWhile wordChar
    let rest2 := rest.drop ext.length
    if ext ≠ [] ∧ base64Marker.isPrefixOf rest2 then
      some (ext, (rest2.drop base64Marker.length).takeWhile (fun c => c ≠ '\n'))
    else none
  else none

/-- Python dict assignment d[k] = v on an association list: if the key is
present its value is updated in place (position kept), otherwise the pair
is appended (insertion order). -/
def dictInsert (m : List (Str × Str)) (k v : Str) : List (Str × Str) :=
  if m.any (fun p => p.1 == k) then
    m.map (fun p => if p.1 = k then (k, v) else p)
  else m ++ [(k, v)]

def imagesSlash : Str := "images/".toList

/-- The literal token images/<path> whose occurrence in the markdown is
tested by the loops (lines 133 and 270). -/
def imgTok (ipath : Str) : Str := imagesSlash ++ ipath

/-- Accumulator of the image-rehosting loop: the images dict
(url to payload), the image_replace dict (token to url), and logs of the
decode and upload calls actually performed (for statements about which
entries are never decoded or uploaded). -/
structure RehostAcc where
  images : List (Str × Str)
  replace : List (Str × Str)
  decodes : List Str
  uploads : List (Str × Str)
deriving DecidableEq, Repr

def RehostAcc.init : RehostAcc := ⟨[], [], [], []⟩

/-- Embeds the image-rehosting loop shared by both parsers
(mineru_parser.py lines 131-158 and 269-282).  encodeImage models
endecode.encode_image (not under src/; modelled from the spec: base64
decode with errors ignored, empty result signalling a decode failure);
upload models self.storage.upload_bytes and may raise.  In the cloud
variant the upload and the recording of the two dict entries are guarded
by the truthiness of self.storage (storagePresent); the synchronous loop
has no such guard, which is embedded by passing storagePresent := true.
A raised upload exception aborts the loop (there is no per-image handler
around the upload call in the source). -/
def rehostLoop (encodeImage : Str → Str) (upload : Str → Str → Except Unit Str)
    (storagePresent : Bool) (md : Str) :
    List (Str × Str) → RehostAcc → Except Unit RehostAcc
  | [], acc => .ok acc
  | (ipath, b64) :: rest, acc =>
    if imgTok ipath <:+: md then
      match base64Match b64 with
      | none => rehostLoop encodeImage upload storagePresent md rest acc
      | some (ext, payload) =>
        let bytes := encodeImage payload
        let acc1 : RehostAcc := { acc with decodes := acc.decodes ++ [payload] }
        if bytes = [] then rehostLoop encodeImage upload storagePresent md rest acc1
        else
          if storagePresent then
            match upload bytes ('.' :: ext) with
            | .error e => .error e
            | .ok url =>
              rehostLoop encodeImage upload storagePresent md rest
                { images := dictInsert acc1.images url payload
                  replace := dictInsert acc1.replace (imgTok ipath) url
                  decodes := acc1.decodes
                  uploads := acc1.uploads ++ [(bytes, '.' :: ext)] }
          else rehostLoop encodeImage upload storagePresent md rest acc1
    else rehostLoop encodeImage upload storagePresent md rest acc

/-- Replace every occurrence of the nonempty pattern p by r, scanning left
to right and never rescanning the inserted replacement (the semantics of
str.replace applied to one pattern). -/
def replaceList (p r : Str) : Str → Str
  | [] => []
  | c :: cs =>
    if p ≠ [] ∧ p.isPrefixOf (c :: cs) then
      r ++ replaceList p r (cs.drop (p.length - 1))
    else c :: replaceList p r cs
termination_by t => t.length
decreasing_by
  · have := List.length_drop (p.length - 1) cs
    simp only [this, List.length_cons]
    omega
  · simp

/-- Modelled from the spec: MarkdownImageUtil.replace_path
(docreader/parser/markdown_parser.py is not under src/).  Spec section 4.4:
accumulate a replacement table and apply a single textual substitution pass
over the markdown at the end, replacing every occurrence of each internal
path with its resolved URL.  Embedded as: for each table entry in
insertion order, replace every occurrence of its key by its value. -/
def replacePath (t : Str) : List (Str × Str) → Str
  | [] => t
  | (k, v) :: rest => replacePath (replaceList k v t) rest

/-- Oracle environment of StdMinerUParser.parse_into_text: the outcome of
the file_parse request (response decoded down to md_content and the images
dict, .error for any raised exception along the way), the markdownify
conversion, the base64 decoder and the blob store. -/
structure SyncEnv where
  fileParse : Except Unit (Str × List (Str × Str))
  markdownify : Str → Except Unit Str
  encodeImage : Str → Str
  uploadBytes : Str → Str → Except Unit Str

/-- Result of a synchronous parse call together with the number of
file_parse network requests issued.  A .error result is a raised exception
propagating to the caller. -/
structure SyncTrace where
  result : Except Unit Document
  nParse : Nat
deriving Repr

/-- Embeds StdMinerUParser.parse_into_text (mineru_parser.py lines 74-167).
The try block covers only the file_parse request and the extraction of
md_content / images (lines 91-119); the markdownify conversion, the
rehosting loop and the final replace_path run outside it, so exceptions
raised there propagate to the caller. -/
def stdParseIntoText (enable enableMarkdownify : Bool) (env : SyncEnv) : SyncTrace :=
  if !enable then ⟨.ok Document.empty, 0⟩
  else
    match env.fileParse with
    | .error _ => ⟨.ok Document.empty, 1⟩
    | .ok (md0, images_b64) =>
      match (if enableMarkdownify then env.markdownify md0 else .ok md0) with
      | .error e => ⟨.error e, 1⟩
      | .ok md =>
        match rehostLoop env.encodeImage env.uploadBytes true md images_b64 RehostAcc.init with
        | .error e => ⟨.error e, 1⟩
        | .ok acc => ⟨.ok ⟨replacePath md acc.replace, acc.images⟩, 1⟩

def POLL_INTERVAL : Nat := 2
def MAX_WAIT_TIME : Nat := 600

/-- Outcome of one status request in the poll loop.  reqError covers every
requests.RequestException: connection errors, non-success HTTP statuses
raised by raise_for_status (HTTPError), and an undecodable response body
(requests JSONDecodeError), all of which land in the except branch at
lines 231-234.  response carries the optional status and state fields of
the decoded JSON body. -/
inductive PollOutcome where
  | reqError
  | response (status state : Option Str)
deriving DecidableEq, Repr

/-- One scripted poll iteration: the wall-clock duration consumed by the
status request itself, and its outcome. -/
structure PollStep where
  dur : Nat
  outcome : PollOutcome
deriving DecidableEq, Repr

/-- Python truthiness-based or (a or b): a is taken unless it is None or
the empty string, in which case the value of b is returned. -/
def pyOr (a b : Option Str) : Option Str :=
  match a with
  | some s => if s = [] then b else some s
  | none => b

/-- Python truthiness of an optional string: None and the empty string are
falsy. -/
def optTruthy (a : Option Str) : Bool :=
  match a with
  | some s => !(s == [])
  | none => false

def doneStr : Str := "done".toList
def successStr : Str := "success".toList
def failedStr : Str := "failed".toList

/-- The completion test state in ["done", "success"] of line 238. -/
def pollDone (st : Option Str) : Bool :=
  st == some doneStr || st == some successStr

inductive PollResult where
  | taskDone
  | taskFailed
  | timedOut
  | exhausted
deriving DecidableEq, Repr

/-- Embeds the poll loop of MinerUCloudParser.parse_into_text (lines
220-244).  At the top of each iteration the elapsed time since submission
is compared against MAX_WAIT_TIME (raising TimeoutError, modelled as
.timedOut); then one status request is consumed from the script.  A raised
RequestException sleeps POLL_INTERVAL and retries; a decoded body is
reduced by status or state; done/success breaks, failed raises
(.taskFailed), anything else sleeps POLL_INTERVAL and loops.  Returns the
result together with the total number of status requests issued.
.exhausted is a model artifact: the finite script ran out while the loop
wanted another request. -/
def pollLoop : List PollStep → Nat → Nat → PollResult × Nat
  | [], elapsed, n =>
    if elapsed > MAX_WAIT_TIME then (.timedOut, n) else (.exhausted, n)
  | step :: rest, elapsed, n =>
    if elapsed > MAX_WAIT_TIME then (.timedOut, n)
    else
      match step.outcome with
      | .reqError => pollLoop rest (elapsed + step.dur + POLL_INTERVAL) (n + 1)
      | .response status state =>
        let st := pyOr status state
        if pollDone st then (.taskDone, n + 1)
        else if st == some failedStr then (.taskFailed, n + 1)
        else pollLoop rest (elapsed + step.dur + POLL_INTERVAL) (n + 1)

/-- Decoded JSON body of the submit response: the top-level task_id field
and the task_id field nested under data (line 210). -/
structure SubmitResp where
  task_id : Option Str
  data_task_id : Option Str
deriving DecidableEq, Repr

/-- Fields extracted from a result object: md_content and images, each
possibly absent (lines 257-258 use .get with defaults). -/
structure ResultFields where
  md_content : Option Str
  images : Option (List (Str × Str))
deriving DecidableEq, Repr

/-- Decoded JSON body of the result-fetch response: the envelope may nest
the result object under a result key, otherwise the top-level object is
used (line 255). -/
structure FetchResp where
  result : Option ResultFields
  top : ResultFields
deriving DecidableEq, Repr

/-- Oracle environment of MinerUCloudParser.parse_into_text: the submit
request outcome, the scripted status-poll outcomes, the fetch outcome, and
the same conversion / decode / upload oracles as the synchronous parser,
plus the truthiness of self.storage. -/
structure CloudEnv where
  submit : Except Unit SubmitResp
  pollScript : List PollStep
  fetch : Except Unit FetchResp
  markdownify : Str → Except Unit Str
  encodeImage : Str → Str
  uploadBytes : Str → Str → Except Unit Str
  storagePresent : Bool

/-- Observable trace of one asynchronous parse call: the returned Document
(none only for the script-exhausted model artifact) and the numbers of
submit, status and fetch requests issued. -/
structure CloudTrace where
  result : Option Document
  nSubmit : Nat
  nStatus : Nat
  nFetch : Nat
deriving DecidableEq, Repr

/-- Embeds MinerUCloudParser.parse_into_text (mineru_parser.py lines
181-291).  The whole submit / poll / fetch / rehost sequence sits inside
one try block whose except branch returns the empty Document, so no
exception propagates; the enable flag short-circuits before any request. -/
def cloudParseIntoText (enable enableMarkdownify : Bool) (env : CloudEnv) : CloudTrace :=
  if !enable then ⟨some Document.empty, 0, 0, 0⟩
  else
    match env.submit with
    | .error _ => ⟨some Document.empty, 1, 0, 0⟩
    | .ok resp =>
      let taskId := pyOr resp.task_id resp.data_task_id
      if !optTruthy taskId then ⟨some Document.empty, 1, 0, 0⟩
      else
        match pollLoop env.pollScript 0 0 with
        | (.timedOut, n) => ⟨some Document.empty, 1, n, 0⟩
        | (.taskFailed, n) => ⟨some Document.empty, 1, n, 0⟩
        | (.exhausted, n) => ⟨none, 1, n, 0⟩
        | (.taskDone, n) =>
          match env.fetch with
          | .error _ => ⟨some Document.empty, 1, n, 1⟩
          | .ok fr =>
            let rd := fr.result.getD fr.top
            let md0 := rd.md_content.getD []
            let images_b64 := rd.images.getD []
            match (if enableMarkdownify then env.markdownify md0 else .ok md0) with
            | .error _ => ⟨some Document.empty, 1, n, 1⟩
            | .ok md =>
              match rehostLoop env.encodeImage env.uploadBytes env.storagePresent
                  md images_b64 RehostAcc.init with
              | .error _ => ⟨some Document.empty, 1, n, 1⟩
              | .ok acc =>
                let text := if acc.replace ≠ [] then replacePath md acc.replace else md
                ⟨some ⟨text, acc.images⟩, 1, n, 1⟩

/-! ### Auxiliary definitions for statements, counterexamples and witnesses -/

/-- A poll step is terminal when its decoded body reports done, success or
failed; request errors and every other body are non-terminal. -/
def stepTerminalB (s : PollStep) : Bool :=
  match s.outcome with
  | .reqError => false
  | .response a b => pollDone (pyOr a b) || (pyOr a b == some failedStr)

/-- Every key of the images dict is a value of the replace dict. -/
def accLinked (acc : RehostAcc) : Prop :=
  ∀ iv ∈ acc.images, ∃ kv ∈ acc.replace, kv.2 = iv.1

def runningStr : Str := "running".toList

/-- A scripted status response reporting an in-progress state, taking no
request time. -/
def runningStep : PollStep := ⟨0, .response none (some runningStr)⟩

/-- A scripted status response reporting completion, taking no request
time. -/
def doneStep : PollStep := ⟨0, .response (some doneStr) none⟩

/-- A scripted status request that raises a RequestException. -/
def errStep : PollStep := ⟨0, .reqError⟩

def taskIdStr : Str := "t1".toList

def respOK : SubmitResp := ⟨some taskIdStr, none⟩

def encId : Str → Str := fun s => s

def strA : Str := ['a']
def strB : Str := ['b']
def strC : Str := ['c']
def strAB : Str := ['a', 'b']
def dataA : Str := "data:image/png;base64,AA".toList
def dataB : Str := "data:image/png;base64,BB".toList
def dataC : Str := "data:image/png;base64,CC".toList
def payloadA : Str := "AA".toList
def payloadB : Str := "BB".toList
def payloadC : Str := "CC".toList
def extPng : Str := "png".toList
def urlA : Str := "urlA".toList
def urlB : Str := "urlB".toList
def notDataUri : Str := "notadatauri".toList

/-- Synchronous environment whose markdownify conversion raises (the
service call itself succeeds). -/
def envC1 : SyncEnv := ⟨.ok ([], []), fun _ => .error (), encId, fun _ _ => .ok []⟩

def envC1a : SyncEnv := ⟨.error (), fun s => .ok s, encId, fun b _ => .ok b⟩

def envC1b : SyncEnv := ⟨.ok ([], []), fun s => .ok s, encId, fun b _ => .ok b⟩

def envC1c : CloudEnv :=
  ⟨.ok respOK, [doneStep], .error (), fun s => .ok s, encId, fun b _ => .ok b, true⟩

def mdAB : Str := "images/a images/b".toList

def entriesC2 : List (Str × Str) := [(strA, dataA), (strB, dataB)]

/-- Upload oracle succeeding for the first image payload and raising for
every other byte string. -/
def uplC2 : Str → Str → Except Unit Str :=
  fun bytes _ => if bytes = payloadA then .ok urlA else .error ()

/-- Cloud environment delivering two referenced images of which the second
upload raises. -/
def envC2 : CloudEnv :=
  ⟨.ok respOK, [doneStep], .ok ⟨none, ⟨some mdAB, some entriesC2⟩⟩,
    fun s => .ok s, encId, uplC2, true⟩

/-- Synchronous environment delivering two referenced images of which the
second upload raises. -/
def envC2a : SyncEnv := ⟨.ok (mdAB, entriesC2), fun s => .ok s, encId, uplC2⟩

def envC3w : CloudEnv :=
  ⟨.ok respOK, List.replicate 2 runningStep ++ [doneStep], .error (),
    fun s => .ok s, encId, fun b _ => .ok b, true⟩

def envC4w : CloudEnv :=
  ⟨.ok respOK, List.replicate 301 runningStep, .error (),
    fun s => .ok s, encId, fun b _ => .ok b, true⟩

def envC8w : CloudEnv :=
  ⟨.ok ⟨none, some []⟩, [doneStep], .error (),
    fun s => .ok s, encId, fun b _ => .ok b, true⟩

def envC10w : CloudEnv :=
  ⟨.ok respOK, List.replicate 301 errStep, .error (),
    fun s => .ok s, encId, fun b _ => .ok b, true⟩

def mdC6 : Str := "images/ab".toList

def entriesC6 : List (Str × Str) := [(strA, dataA), (strAB, dataB)]

/-- Upload oracle mapping the first payload to urlA and everything else to
urlB. -/
def uplC6 : Str → Str → Except Unit Str :=
  fun bytes _ => if bytes = payloadA then .ok urlA else .ok urlB

/-- Synchronous environment with two referenced images whose internal-path
tokens overlap: images/a is a prefix of images/ab. -/
def envC6 : SyncEnv := ⟨.ok (mdC6, entriesC6), fun s => .ok s, encId, uplC6⟩

def contentC6 : Str := "urlAb".toList

def mdW : Str := "see images/a now".toList
def urlW : Str := "http://u/z.png".toList
def entriesW : List (Str × Str) := [(strA, dataA)]

/-- Well-separated synchronous environment: one referenced image whose
rehosted URL shares no overlap with the internal-path token. -/
def envC6w : SyncEnv := ⟨.ok (mdW, entriesW), fun s => .ok s, encId, fun _ _ => .ok urlW⟩

/-- Well-separated cloud environment for the same single-image scenario. -/
def envC6wc : CloudEnv :=
  ⟨.ok respOK, [doneStep], .ok ⟨none, ⟨some mdW, some entriesW⟩⟩,
    fun s => .ok s, encId, fun _ _ => .ok urlW, true⟩

/-- The accumulator produced by the rehost loop in the well-separated
scenario. -/
def accW : RehostAcc :=
  ⟨[(urlW, payloadA)], [(imgTok strA, urlW)], [payloadA], [(payloadA, '.' :: extPng)]⟩

def contentW : Str := "see http://u/z.png now".toList

def mdABC : Str := "images/a images/b images/c".toList

def entriesC7 : List (Str × Str) := [(strA, dataA), (strB, notDataUri), (strC, dataC)]

/-- Upload oracle prefixing the byte string with a marker character. -/
def uplU : Str → Str → Except Unit Str := fun bytes _ => .ok ('u' :: bytes)

/-- Synchronous environment with three referenced images, the middle one
carrying a malformed data-URI envelope. -/
def envC7 : SyncEnv := ⟨.ok (mdABC, entriesC7), fun s => .ok s, encId, uplU⟩

def contentC7 : Str := "uAA images/b uCC".toList

def imagesC7 : List (Str × Str) := [('u' :: payloadA, payloadA), ('u' :: payloadC, payloadC)]

/-! ### Occurrence and replacement lemmas -/

/-- A prefix of an append is a prefix of the left part or extends past it. -/
theorem prefix_append_cases {u x y : Str} (h : u <+: x ++ y) :
    u <+: x ∨ ∃ s, u = x ++ s ∧ s <+: y := by
  rcases List.prefix_or_prefix_of_prefix h (List.prefix_append x y) with h1 | h1
  · exact Or.inl h1
  · obtain ⟨s, hs⟩ := h1
    right
    refine ⟨s, hs.symm, ?_⟩
    rw [← hs] at h
    exact (List.prefix_append_right_inj x).mp h

/-- An occurrence inside an append lies in the left part, lies in the right
part, or straddles the boundary (a nonempty suffix of the left part glued
to a nonempty prefix of the right part). -/
theorem infix_append_cases {u x y : Str} (h : u <:+: x ++ y) :
    u <:+: x ∨ u <:+: y ∨
      ∃ s1 s2, u = s1 ++ s2 ∧ s1 ≠ [] ∧ s2 ≠ [] ∧ s1 <:+ x ∧ s2 <+: y := by
  induction x with
  | nil => exact Or.inr (Or.inl h)
  | cons c xs ih =>
    rw [List.cons_append] at h
    rcases List.infix_cons_iff.mp h with h1 | h1
    · rcases List.prefix_cons_iff.mp h1 with h2 | ⟨t, ht, htp⟩
      · exact Or.inl (h2 ▸ List.nil_infix)
      · rcases prefix_append_cases htp with h3 | ⟨s, hs, hsp⟩
        · exact Or.inl (ht ▸ (List.cons_prefix_cons.mpr ⟨rfl, h3⟩).isInfix)
        · by_cases hse : s = []
          · subst hse
            rw [List.append_nil] at hs
            exact Or.inl (ht ▸ hs ▸ List.infix_refl (c :: xs))
          · refine Or.inr (Or.inr ⟨c :: xs, s, ?_, by simp, hse, List.suffix_refl _, hsp⟩)
            rw [ht, hs]
            simp
    · rcases ih h1 with h2 | h2 | ⟨s1, s2, hu, h1n, h2n, hsx, hsy⟩
      · exact Or.inl (List.infix_cons h2)
      · exact Or.inr (Or.inl h2)
      · exact Or.inr (Or.inr ⟨s1, s2, hu, h1n, h2n, hsx.trans (List.suffix_cons c xs), hsy⟩)

theorem infix_append_left {u x : Str} (y : Str) (h : u <:+: x) : u <:+: x ++ y :=
  h.trans (List.prefix_append x y).isInfix

theorem infix_append_right (x : Str) {u y : Str} (h : u <:+: y) : u <:+: x ++ y :=
  h.trans (List.suffix_append x y).isInfix

/-- No nonempty suffix of a is a prefix of b. -/
def overlapFree (a b : Str) : Prop := ∀ s, s ≠ [] → s <:+ a → ¬ s <+: b

instance (a b : Str) : Decidable (overlapFree a b) :=
  decidable_of_iff (∀ s ∈ a.tails, s ≠ [] → ¬ s <+: b) (by
    constructor
    · intro h s hne hs
      exact h s ((List.mem_tails s a).mpr hs) hne
    · intro h s hs hne
      exact h s hne ((List.mem_tails s a).mp hs))

/-- Two strings are independent when neither occurs inside the other and no
nonempty suffix of one is a prefix of the other (so occurrences of the two
can never overlap, and replacing one can never create or destroy an
occurrence of the other at a boundary). -/
def indep (a b : Str) : Prop :=
  ¬ a <:+: b ∧ ¬ b <:+: a ∧ overlapFree a b ∧ overlapFree b a

instance (a b : Str) : Decidable (indep a b) := by
  unfold indep
  infer_instance

theorem indep_symm {a b : Str} (h : indep a b) : indep b a :=
  ⟨h.2.1, h.1, h.2.2.2, h.2.2.1⟩

theorem indep_ne_nil {a b : Str} (h : indep a b) : a ≠ [] :=
  fun he => h.1 (he ▸ List.nil_infix)

/-- When the pattern matches at the head, the text splits as the pattern
followed by the dropped remainder. -/
theorem match_decomp {p : Str} {c : Char} {cs : Str}
    (h : p.isPrefixOf (c :: cs)) (hp : p ≠ []) :
    c :: cs = p ++ cs.drop (p.length - 1) := by
  have hpre : p <+: c :: cs := List.isPrefixOf_iff_prefix.mp h
  obtain ⟨w, hw⟩ := hpre
  have hdrop : cs.drop (p.length - 1) = (c :: cs).drop p.length := by
    cases p with
    | nil => exact absurd rfl hp
    | cons q qs => simp [List.drop_succ_cons]
  rw [hdrop, ← hw, List.drop_left]

/-- Unfolding equation of replaceList in the matching case. -/
theorem replaceList_pos {p r : Str} {c : Char} {cs : Str}
    (hc : p ≠ [] ∧ p.isPrefixOf (c :: cs) = true) :
    replaceList p r (c :: cs) = r ++ replaceList p r (cs.drop (p.length - 1)) := by
  simp only [replaceList, if_pos hc]

/-- Unfolding equation of replaceList in the non-matching case. -/
theorem replaceList_neg {p r : Str} {c : Char} {cs : Str}
    (hc : ¬ (p ≠ [] ∧ p.isPrefixOf (c :: cs) = true)) :
    replaceList p r (c :: cs) = c :: replaceList p r cs := by
  simp only [replaceList, if_neg hc]

theorem replaceList_nil {p r : Str} : replaceList p r [] = [] := by
  simp [replaceList]

/-- If the pattern occurs in the text, the replacement occurs in the result. -/
theorem replaceList_repl {p r : Str} (hp : p ≠ []) :
    ∀ {t : Str}, p <:+: t → r <:+: replaceList p r t := by
  intro t
  induction t using replaceList.induct p r with
  | case1 =>
    intro h
    exact absurd (List.eq_nil_of_infix_nil h) hp
  | case2 c cs hc ih =>
    intro _
    rw [replaceList_pos hc]
    exact infix_append_left _ (List.infix_refl r)
  | case3 c cs hc ih =>
    intro h
    rw [replaceList_neg hc]
    rcases List.infix_cons_iff.mp h with h1 | h1
    · exact absurd ⟨hp, List.isPrefixOf_iff_prefix.mpr h1⟩ hc
    · exact List.infix_cons (ih h1)

/-- If no match starts within the first n positions, replacement leaves the
first n characters untouched. -/
theorem replaceList_take {p r : Str} :
    ∀ (n : Nat) (t : Str), (∀ i, i < n → ¬ p <+: t.drop i) →
      replaceList p r t = t.take n ++ replaceList p r (t.drop n)
  | 0, t, _ => by simp
  | n + 1, [], _ => by simp [replaceList_nil]
  | n + 1, c :: cs, h => by
    have h0 : ¬ p <+: c :: cs := by simpa using h 0 (Nat.succ_pos n)
    have hcond : ¬ (p ≠ [] ∧ p.isPrefixOf (c :: cs) = true) := by
      rintro ⟨hp, hpre⟩
      exact h0 (List.isPrefixOf_iff_prefix.mp hpre)
    rw [replaceList_neg hcond,
      replaceList_take n cs (fun i hi => by simpa using h (i + 1) (Nat.succ_lt_succ hi))]
    simp

/-- A prefix of the text survives replacement of an independent pattern. -/
theorem replaceList_pres_pfx {p r u t : Str} (h : indep p u) (hu : u <+: t) :
    u <+: replaceList p r t := by
  have hnomatch : ∀ i, i < u.length → ¬ p <+: t.drop i := by
    intro i hi hp
    obtain ⟨w, hw⟩ := hu
    rw [← hw, List.drop_append_eq_append_drop] at hp
    have hz : i - u.length = 0 := by omega
    rw [hz, List.drop_zero] at hp
    rcases prefix_append_cases hp with h1 | ⟨s, hs, hsp⟩
    · exact h.1 (h1.isInfix.trans (List.drop_suffix i u).isInfix)
    · have hne : u.drop i ≠ [] := by
        have := List.length_drop i u
        intro hnil
        rw [hnil] at this
        simp at this
        omega
      exact h.2.2.2 (u.drop i) hne (List.drop_suffix i u) ⟨s, hs.symm⟩
  have heq := @replaceList_take p r u.length t hnomatch
  have hts : t.take u.length = u := (List.prefix_iff_eq_take.mp hu).symm
  rw [heq, hts]
  exact List.prefix_append u _

/-- An occurrence in the text survives replacement of an independent
pattern. -/
theorem replaceList_preserves {p r u : Str} (h : indep p u) :
    ∀ {t : Str}, u <:+: t → u <:+: replaceList p r t := by
  intro t
  induction t using replaceList.induct p r with
  | case1 =>
    intro hu
    have := List.eq_nil_of_infix_nil hu
    subst this
    exact List.nil_infix
  | case2 c cs hc ih =>
    intro hu
    have hdecomp : c :: cs = p ++ cs.drop (p.length - 1) := match_decomp hc.2 hc.1
    rw [replaceList_pos hc]
    rw [hdecomp] at hu
    rcases infix_append_cases hu with h1 | h1 | ⟨s1, s2, hus, h1n, h2n, hs1, hs2⟩
    · exact absurd h1 h.2.1
    · exact infix_append_right r (ih h1)
    · exact absurd ⟨s2, hus.symm⟩ (h.2.2.1 s1 h1n hs1)
  | case3 c cs hc ih =>
    intro hu
    rcases List.infix_cons_iff.mp hu with h1 | h1
    · exact (replaceList_pres_pfx h h1).isInfix
    · rw [replaceList_neg hc]
      exact List.infix_cons (ih h1)

/-- A nonempty suffix s of u that is a prefix of the replacement output is
already a prefix of the text, provided the replacement string neither
begins an occurrence of u at a boundary nor sits inside u. -/
theorem replaceList_pfx_trace {p r u : Str} (h1 : overlapFree u r) (h2 : ¬ r <:+: u) :
    ∀ (t : Str), ∀ s, s ≠ [] → s <:+ u → s <+: replaceList p r t → s <+: t := by
  intro t
  induction t using replaceList.induct p r with
  | case1 =>
    intro s hne _ hsp
    rw [replaceList_nil] at hsp
    exact absurd (List.prefix_nil.mp hsp) hne
  | case2 c cs hc ih =>
    intro s hne hsu hsp
    rw [replaceList_pos hc] at hsp
    rcases prefix_append_cases hsp with hp1 | ⟨s2, hs2, hs2p⟩
    · exact absurd hp1 (h1 s hne hsu)
    · have hrs : r <+: s := ⟨s2, hs2.symm⟩
      exact absurd ((List.IsPrefix.isInfix hrs).trans (List.IsSuffix.isInfix hsu)) h2
  | case3 c cs hc ih =>
    intro s hne hsu hsp
    rw [replaceList_neg hc] at hsp
    rcases List.prefix_cons_iff.mp hsp with h3 | ⟨t', ht', htp⟩
    · exact absurd h3 hne
    · by_cases hte : t' = []
      · subst hte
        rw [ht']
        exact ⟨cs, rfl⟩
      · have ht'u : t' <:+ u := (ht' ▸ List.suffix_cons c t' : t' <:+ s).trans hsu
        have hcs := ih t' hte ht'u htp
        rw [ht']
        exact List.cons_prefix_cons.mpr ⟨rfl, hcs⟩

/-- After replacing every occurrence of a pattern by an independent
replacement, the pattern no longer occurs. -/
theorem replaceList_elim {p r : Str} (h : indep p r) :
    ∀ (t : Str), ¬ p <:+: replaceList p r t := by
  have hp : p ≠ [] := indep_ne_nil h
  intro t
  induction t using replaceList.induct p r with
  | case1 =>
    rw [replaceList_nil]
    intro hcon
    exact hp (List.eq_nil_of_infix_nil hcon)
  | case2 c cs hc ih =>
    rw [replaceList_pos hc]
    intro hcon
    rcases infix_append_cases hcon with h1 | h1 | ⟨s1, s2, hps, h1n, h2n, hs1, hs2⟩
    · exact h.1 h1
    · exact ih h1
    · exact h.2.2.2 s1 h1n hs1 ⟨s2, hps.symm⟩
  | case3 c cs hc ih =>
    rw [replaceList_neg hc]
    intro hcon
    rcases List.infix_cons_iff.mp hcon with h1 | h1
    · rcases List.prefix_cons_iff.mp h1 with h2 | ⟨t', ht', htp⟩
      · exact hp h2
      · by_cases hte : t' = []
        · subst hte
          apply hc
          refine ⟨hp, List.isPrefixOf_iff_prefix.mpr ?_⟩
          rw [ht']
          exact ⟨cs, rfl⟩
        · have htu : t' <:+ p := ht' ▸ List.suffix_cons c t'
          have hcs := replaceList_pfx_trace h.2.2.1 h.2.1 cs t' hte htu htp
          apply hc
          refine ⟨hp, List.isPrefixOf_iff_prefix.mpr ?_⟩
          rw [ht']
          exact List.cons_prefix_cons.mpr ⟨rfl, hcs⟩
    · exact ih h1

/-- Replacing a pattern by a replacement independent of u never introduces
an occurrence of u. -/
theorem replaceList_no_intro {p r u : Str} (h : indep u r) :
    ∀ (t : Str), ¬ u <:+: t → ¬ u <:+: replaceList p r t := by
  intro t
  induction t using replaceList.induct p r with
  | case1 =>
    intro hnt
    rw [replaceList_nil]
    exact hnt
  | case2 c cs hc ih =>
    intro hnt hcon
    rw [replaceList_pos hc] at hcon
    rcases infix_append_cases hcon with h1 | h1 | ⟨s1, s2, hus, h1n, h2n, hs1, hs2⟩
    · exact h.1 h1
    · refine ih ?_ h1
      intro hud
      exact hnt (hud.trans (((List.drop_suffix _ cs).trans (List.suffix_cons c cs)).isInfix))
    · exact h.2.2.2 s1 h1n hs1 ⟨s2, hus.symm⟩
  | case3 c cs hc ih =>
    intro hnt hcon
    rw [replaceList_neg hc] at hcon
    rcases List.infix_cons_iff.mp hcon with h1 | h1
    · rcases List.prefix_cons_iff.mp h1 with h2 | ⟨t', ht', htp⟩
      · exact hnt (h2 ▸ List.nil_infix)
      · by_cases hte : t' = []
        · subst hte
          refine hnt (List.IsPrefix.isInfix ?_)
          rw [ht']
          exact ⟨cs, rfl⟩
        · have htu : t' <:+ u := ht' ▸ List.suffix_cons c t'
          have hcs := replaceList_pfx_trace h.2.2.1 h.2.1 cs t' hte htu htp
          refine hnt (List.IsPrefix.isInfix ?_)
          rw [ht']
          exact List.cons_prefix_cons.mpr ⟨rfl, hcs⟩
    · refine ih ?_ h1
      intro hucs
      exact hnt (hucs.trans (List.suffix_cons c cs).isInfix)

/-- An occurrence of u survives a whole substitution pass whose keys are
all independent of u. -/
theorem replacePath_preserves {u : Str} :
    ∀ (table : List (Str × Str)) (t : Str),
      (∀ kv ∈ table, indep kv.1 u) → u <:+: t → u <:+: replacePath t table
  | [], _, _, hu => hu
  | (k, v) :: rest, t, h, hu =>
    replacePath_preserves rest (replaceList k v t)
      (fun kv hkv => h kv (List.mem_cons.mpr (Or.inr hkv)))
      (replaceList_preserves (h (k, v) (List.mem_cons.mpr (Or.inl rfl))) hu)

/-- A substitution pass whose values are all independent of u never
introduces an occurrence of u. -/
theorem replacePath_no_intro {u : Str} :
    ∀ (table : List (Str × Str)) (t : Str),
      (∀ kv ∈ table, indep u kv.2) → ¬ u <:+: t → ¬ u <:+: replacePath t table
  | [], _, _, hu => hu
  | (k, v) :: rest, t, h, hu =>
    replacePath_no_intro rest (replaceList k v t)
      (fun kv hkv => h kv (List.mem_cons.mpr (Or.inr hkv)))
      (replaceList_no_intro (h (k, v) (List.mem_cons.mpr (Or.inl rfl))) t hu)

/-- Main correctness of the substitution pass: when the keys occur in the
text, the keys are pairwise independent, and every key is independent of
every value, then after the pass each value occurs and no key occurs. -/
theorem replacePath_spec :
    ∀ (table : List (Str × Str)) (t : Str),
      table.Pairwise (fun a b => indep a.1 b.1) →
      (∀ a ∈ table, ∀ b ∈ table, indep a.1 b.2) →
      (∀ kv ∈ table, kv.1 <:+: t) →
      ∀ kv ∈ table, kv.2 <:+: replacePath t table ∧ ¬ kv.1 <:+: replacePath t table
  | [], t, _, _, _ => by simp
  | (k, v) :: rest, t, hpw, hkv2, hocc => by
    intro kv hkv
    have hmemh : (k, v) ∈ (k, v) :: rest := List.mem_cons.mpr (Or.inl rfl)
    have hkv_kv : indep k v := hkv2 (k, v) hmemh (k, v) hmemh
    have hknil : k ≠ [] := indep_ne_nil hkv_kv
    have hkt : k <:+: t := hocc (k, v) hmemh
    have hstep : replacePath t ((k, v) :: rest) = replacePath (replaceList k v t) rest := rfl
    rcases List.mem_cons.mp hkv with heq | hmem
    · subst heq
      constructor
      · rw [hstep]
        exact replacePath_preserves rest _
          (fun kv' hkv' => hkv2 kv' (List.mem_cons.mpr (Or.inr hkv')) (k, v) hmemh)
          (replaceList_repl hknil hkt)
      · rw [hstep]
        exact replacePath_no_intro rest _
          (fun kv' hkv' => hkv2 (k, v) hmemh kv' (List.mem_cons.mpr (Or.inr hkv')))
          (replaceList_elim hkv_kv t)
    · have ht1 : ∀ kv' ∈ rest, kv'.1 <:+: replaceList k v t := by
        intro kv' hkv'
        have hind : indep k kv'.1 := (List.pairwise_cons.mp hpw).1 kv' hkv'
        exact replaceList_preserves hind (hocc kv' (List.mem_cons.mpr (Or.inr hkv')))
      have hres := replacePath_spec rest (replaceList k v t)
        (List.pairwise_cons.mp hpw).2
        (fun a ha b hb =>
          hkv2 a (List.mem_cons.mpr (Or.inr ha)) b (List.mem_cons.mpr (Or.inr hb)))
        ht1 kv hmem
      rw [hstep]
      exact hres

/-! ### Rehost loop lemmas -/

theorem rehostLoop_cons_unref {enc : Str → Str} {upl : Str → Str → Except Unit Str}
    {sp : Bool} {md : Str} {p b : Str} {rest : List (Str × Str)} {acc : RehostAcc}
    (h : ¬ imgTok p <:+: md) :
    rehostLoop enc upl sp md ((p, b) :: rest) acc = rehostLoop enc upl sp md rest acc := by
  simp only [rehostLoop, h, if_false, ite_false, reduceIte]

theorem rehostLoop_cons_nomatch {enc : Str → Str} {upl : Str → Str → Except Unit Str}
    {sp : Bool} {md : Str} {p b : Str} {rest : List (Str × Str)} {acc : RehostAcc}
    (h : imgTok p <:+: md) (hb : base64Match b = none) :
    rehostLoop enc upl sp md ((p, b) :: rest) acc = rehostLoop enc upl sp md rest acc := by
  simp only [rehostLoop, h, hb, if_true, ite_true, reduceIte]

theorem rehostLoop_cons_decfail {enc : Str → Str} {upl : Str → Str → Except Unit Str}
    {sp : Bool} {md : Str} {p b ext pay : Str} {rest : List (Str × Str)} {acc : RehostAcc}
    (h : imgTok p <:+: md) (hb : base64Match b = some (ext, pay)) (hd : enc pay = []) :
    rehostLoop enc upl sp md ((p, b) :: rest) acc =
      rehostLoop enc upl sp md rest { acc with decodes := acc.decodes ++ [pay] } := by
  simp only [rehostLoop, h, hb, hd, if_true, ite_true, reduceIte]

theorem rehostLoop_cons_upok {enc : Str → Str} {upl : Str → Str → Except Unit Str}
    {md : Str} {p b ext pay url : Str} {rest : List (Str × Str)} {acc : RehostAcc}
    (h : imgTok p <:+: md) (hb : base64Match b = some (ext, pay)) (hd : enc pay ≠ [])
    (hu : upl (enc pay) ('.' :: ext) = .ok url) :
    rehostLoop enc upl true md ((p, b) :: rest) acc =
      rehostLoop enc upl true md rest
        { images := dictInsert acc.images url pay
          replace := dictInsert acc.replace (imgTok p) url
          decodes := acc.decodes ++ [pay]
          uploads := acc.uploads ++ [(enc pay, '.' :: ext)] } := by
  simp only [rehostLoop, h, hb, hd, hu, if_true, ite_true, reduceIte]

theorem rehostLoop_cons_uperr {enc : Str → Str} {upl : Str → Str → Except Unit Str}
    {md : Str} {p b ext pay : Str} {rest : List (Str × Str)} {acc : RehostAcc}
    (h : imgTok p <:+: md) (hb : base64Match b = some (ext, pay)) (hd : enc pay ≠ [])
    (hu : upl (enc pay) ('.' :: ext) = .error ()) :
    rehostLoop enc upl true md ((p, b) :: rest) acc = .error () := by
  simp only [rehostLoop, h, hb, hd, hu, if_true, ite_true, reduceIte]

theorem rehostLoop_cons_nostorage {enc : Str → Str} {upl : Str → Str → Except Unit Str}
    {md : Str} {p b ext pay : Str} {rest : List (Str × Str)} {acc : RehostAcc}
    (h : imgTok p <:+: md) (hb : base64Match b = some (ext, pay)) (hd : enc pay ≠ []) :
    rehostLoop enc upl false md ((p, b) :: rest) acc =
      rehostLoop enc upl false md rest { acc with decodes := acc.decodes ++ [pay] } := by
  simp only [rehostLoop, h, hb, hd, if_true, ite_true, reduceIte]
  simp

theorem dictInsert_mem {m : List (Str × Str)} {k v : Str} {kv : Str × Str}
    (h : kv ∈ dictInsert m k v) : kv ∈ m ∨ kv = (k, v) := by
  unfold dictInsert at h
  split at h
  · rcases List.mem_map.mp h with ⟨q, hq, hqe⟩
    by_cases hqk : q.1 = k
    · right
      rw [if_pos hqk] at hqe
      exact hqe.symm
    · left
      rw [if_neg hqk] at hqe
      exact hqe ▸ hq
  · rcases List.mem_append.mp h with h1 | h1
    · exact Or.inl h1
    · right
      simpa using h1

theorem dictInsert_append {m : List (Str × Str)} {k v : Str}
    (h : ∀ q ∈ m, q.1 ≠ k) : dictInsert m k v = m ++ [(k, v)] := by
  unfold dictInsert
  rw [if_neg]
  intro hany
  rcases List.any_eq_true.mp hany with ⟨q, hq, hqk⟩
  exact h q hq (by simpa using hqk)

theorem imgTok_inj {a b : Str} (h : imgTok a = imgTok b) : a = b := by
  unfold imgTok at h
  exact List.append_cancel_left h

/-- The rehosting pass ignores entries whose token does not occur in the
markdown: running it on the full entry list is the same as running it on
the referenced sublist, so unreferenced entries are never decoded, never
uploaded, and contribute nothing to any output. -/
theorem rehostLoop_filter (enc : Str → Str) (upl : Str → Str → Except Unit Str)
    (sp : Bool) (md : Str) :
    ∀ (entries : List (Str × Str)) (acc : RehostAcc),
      rehostLoop enc upl sp md entries acc =
        rehostLoop enc upl sp md
          (entries.filter (fun e => decide (imgTok e.1 <:+: md))) acc
  | [], _ => rfl
  | (p, b) :: rest, acc => by
    by_cases href : imgTok p <:+: md
    · rw [List.filter_cons_of_pos (by simpa using href)]
      rcases hb : base64Match b with _ | ⟨ext, pay⟩
      · rw [rehostLoop_cons_nomatch href hb, rehostLoop_cons_nomatch href hb]
        exact rehostLoop_filter enc upl sp md rest acc
      · by_cases hd : enc pay = []
        · rw [rehostLoop_cons_decfail href hb hd, rehostLoop_cons_decfail href hb hd]
          exact rehostLoop_filter enc upl sp md rest _
        · cases sp with
          | false =>
            rw [rehostLoop_cons_nostorage href hb hd,
              rehostLoop_cons_nostorage href hb hd]
            exact rehostLoop_filter enc upl false md rest _
          | true =>
            cases hu : upl (enc pay) ('.' :: ext) with
            | error e =>
              cases e
              rw [rehostLoop_cons_uperr href hb hd hu, rehostLoop_cons_uperr href hb hd hu]
            | ok url =>
              rw [rehostLoop_cons_upok href hb hd hu, rehostLoop_cons_upok href hb hd hu]
              exact rehostLoop_filter enc upl true md rest _
    · rw [List.filter_cons_of_neg (by simpa using href), rehostLoop_cons_unref href]
      exact rehostLoop_filter enc upl sp md rest acc

/-- Every entry of the final replacement table was either present at the
start or has a token occurring in the markdown. -/
theorem rehostLoop_replace_occurs (enc : Str → Str) (upl : Str → Str → Except Unit Str)
    (sp : Bool) (md : Str) :
    ∀ (entries : List (Str × Str)) (acc acc2 : RehostAcc),
      rehostLoop enc upl sp md entries acc = .ok acc2 →
      ∀ kv ∈ acc2.replace, kv ∈ acc.replace ∨ kv.1 <:+: md
  | [], acc, acc2, h => by
    have hacc : acc = acc2 := by simpa [rehostLoop] using h
    subst hacc
    intro kv hkv
    exact Or.inl hkv
  | (p, b) :: rest, acc, acc2, h => by
    by_cases href : imgTok p <:+: md
    · rcases hb : base64Match b with _ | ⟨ext, pay⟩
      · rw [rehostLoop_cons_nomatch href hb] at h
        exact rehostLoop_replace_occurs enc upl sp md rest acc acc2 h
      · by_cases hd : enc pay = []
        · rw [rehostLoop_cons_decfail href hb hd] at h
          intro kv hkv
          exact rehostLoop_replace_occurs enc upl sp md rest _ acc2 h kv hkv
        · cases sp with
          | false =>
            rw [rehostLoop_cons_nostorage href hb hd] at h
            intro kv hkv
            exact rehostLoop_replace_occurs enc upl false md rest _ acc2 h kv hkv
          | true =>
            cases hu : upl (enc pay) ('.' :: ext) with
            | error e =>
              cases e
              rw [rehostLoop_cons_uperr href hb hd hu] at h
              exact absurd h (by simp)
            | ok url =>
              rw [rehostLoop_cons_upok href hb hd hu] at h
              intro kv hkv
              rcases rehostLoop_replace_occurs enc upl true md rest _ acc2 h kv hkv
                with h1 | h1
              · rcases dictInsert_mem h1 with h2 | h2
                · exact Or.inl h2
                · right
                  rw [h2]
                  exact href
              · exact Or.inr h1
    · rw [rehostLoop_cons_unref href] at h
      exact rehostLoop_replace_occurs enc upl sp md rest acc acc2 h

/-- The loop keeps every key of the images dict linked to a value of the
replacement table, provided the entry paths are distinct and fresh with
respect to the accumulator. -/
theorem rehostLoop_linked (enc : Str → Str) (upl : Str → Str → Except Unit Str)
    (sp : Bool) (md : Str) :
    ∀ (entries : List (Str × Str)) (acc acc2 : RehostAcc),
      (∀ e ∈ entries, ∀ kv ∈ acc.replace, kv.1 ≠ imgTok e.1) →
      (entries.map Prod.fst).Nodup →
      accLinked acc →
      rehostLoop enc upl sp md entries acc = .ok acc2 → accLinked acc2
  | [], acc, acc2, _, _, hlink, h => by
    have hacc : acc = acc2 := by simpa [rehostLoop] using h
    exact hacc ▸ hlink
  | (p, b) :: rest, acc, acc2, hfresh, hnodup, hlink, h => by
    have hnodup' : (rest.map Prod.fst).Nodup := by
      rw [List.map_cons, List.nodup_cons] at hnodup
      exact hnodup.2
    have hpnotin : p ∉ rest.map Prod.fst := by
      rw [List.map_cons, List.nodup_cons] at hnodup
      exact hnodup.1
    have hfresh' : ∀ e ∈ rest, ∀ kv ∈ acc.replace, kv.1 ≠ imgTok e.1 :=
      fun e he => hfresh e (List.mem_cons.mpr (Or.inr he))
    by_cases href : imgTok p <:+: md
    · rcases hb : base64Match b with _ | ⟨ext, pay⟩
      · rw [rehostLoop_cons_nomatch href hb] at h
        exact rehostLoop_linked enc upl sp md rest acc acc2 hfresh' hnodup' hlink h
      · by_cases hd : enc pay = []
        · rw [rehostLoop_cons_decfail href hb hd] at h
          exact rehostLoop_linked enc upl sp md rest
            { acc with decodes := acc.decodes ++ [pay] } acc2 hfresh' hnodup' hlink h
        · cases sp with
          | false =>
            rw [rehostLoop_cons_nostorage href hb hd] at h
            exact rehostLoop_linked enc upl false md rest
              { acc with decodes := acc.decodes ++ [pay] } acc2 hfresh' hnodup' hlink h
          | true =>
            cases hu : upl (enc pay) ('.' :: ext) with
            | error e =>
              cases e
              rw [rehostLoop_cons_uperr href hb hd hu] at h
              exact absurd h (by simp)
            | ok url =>
              rw [rehostLoop_cons_upok href hb hd hu] at h
              have hkeys : ∀ q ∈ acc.replace, q.1 ≠ imgTok p :=
                fun q hq => hfresh (p, b) (List.mem_cons.mpr (Or.inl rfl)) q hq
              have happ : dictInsert acc.replace (imgTok p) url =
                  acc.replace ++ [(imgTok p, url)] := dictInsert_append hkeys
              refine rehostLoop_linked enc upl true md rest _ acc2 ?_ hnodup' ?_ h
              · intro e he kv hkv
                rw [happ] at hkv
                rcases List.mem_append.mp hkv with h1 | h1
                · exact hfresh' e he kv h1
                · have hkv2 : kv = (imgTok p, url) := by simpa using h1
                  rw [hkv2]
                  intro hcon
                  exact hpnotin (imgTok_inj hcon ▸ List.mem_map_of_mem Prod.fst he)
              · intro iv hiv
                rcases dictInsert_mem hiv with h1 | h1
                · obtain ⟨kv, hkv, hkv2⟩ := hlink iv h1
                  refine ⟨kv, ?_, hkv2⟩
                  rw [happ]
                  exact List.mem_append.mpr (Or.inl hkv)
                · refine ⟨(imgTok p, url), ?_, ?_⟩
                  · rw [happ]
                    exact List.mem_append.mpr (Or.inr (by simp))
                  · rw [h1]
    · rw [rehostLoop_cons_unref href] at h
      exact rehostLoop_linked enc upl sp md rest acc acc2 hfresh' hnodup' hlink h

/-- When the upload oracle never raises, the rehost loop never raises. -/
theorem rehostLoop_ok (enc : Str → Str) (upl : Str → Str → Except Unit Str)
    (sp : Bool) (md : Str) (hupl : ∀ b e, upl b e ≠ .error ()) :
    ∀ (entries : List (Str × Str)) (acc : RehostAcc),
      ∃ acc2, rehostLoop enc upl sp md entries acc = .ok acc2
  | [], acc => ⟨acc, rfl⟩
  | (p, b) :: rest, acc => by
    by_cases href : imgTok p <:+: md
    · rcases hb : base64Match b with _ | ⟨ext, pay⟩
      · rw [rehostLoop_cons_nomatch href hb]
        exact rehostLoop_ok enc upl sp md hupl rest acc
      · by_cases hd : enc pay = []
        · rw [rehostLoop_cons_decfail href hb hd]
          exact rehostLoop_ok enc upl sp md hupl rest _
        · cases sp with
          | false =>
            rw [rehostLoop_cons_nostorage href hb hd]
            exact rehostLoop_ok enc upl false md hupl rest _
          | true =>
            cases hu : upl (enc pay) ('.' :: ext) with
            | error e =>
              cases e
              exact absurd hu (hupl _ _)
            | ok url =>
              rw [rehostLoop_cons_upok href hb hd hu]
              exact rehostLoop_ok enc upl true md hupl rest _
    · rw [rehostLoop_cons_unref href]
      exact rehostLoop_ok enc upl sp md hupl rest acc

/-! ### Poll loop lemmas -/

theorem pollLoop_timeout {script : List PollStep} {elapsed n : Nat}
    (h : elapsed > MAX_WAIT_TIME) : pollLoop script elapsed n = (.timedOut, n) := by
  cases script with
  | nil =>
    simp only [pollLoop]
    rw [if_pos h]
  | cons s rest =>
    simp only [pollLoop]
    rw [if_pos h]

theorem pollLoop_nil {elapsed n : Nat} (h : ¬ elapsed > MAX_WAIT_TIME) :
    pollLoop [] elapsed n = (.exhausted, n) := by
  simp only [pollLoop]
  rw [if_neg h]

theorem pollLoop_reqError {d : Nat} {rest : List PollStep} {elapsed n : Nat}
    (h : ¬ elapsed > MAX_WAIT_TIME) :
    pollLoop (⟨d, .reqError⟩ :: rest) elapsed n =
      pollLoop rest (elapsed + d + POLL_INTERVAL) (n + 1) := by
  simp only [pollLoop]
  rw [if_neg h]

theorem pollLoop_done {d : Nat} {a b : Option Str} {rest : List PollStep} {elapsed n : Nat}
    (h : ¬ elapsed > MAX_WAIT_TIME) (hst : pollDone (pyOr a b) = true) :
    pollLoop (⟨d, .response a b⟩ :: rest) elapsed n = (.taskDone, n + 1) := by
  simp only [pollLoop]
  rw [if_neg h]
  simp [hst]

theorem pollLoop_failed {d : Nat} {a b : Option Str} {rest : List PollStep} {elapsed n : Nat}
    (h : ¬ elapsed > MAX_WAIT_TIME) (hst : pollDone (pyOr a b) = false)
    (hf : (pyOr a b == some failedStr) = true) :
    pollLoop (⟨d, .response a b⟩ :: rest) elapsed n = (.taskFailed, n + 1) := by
  simp only [pollLoop]
  rw [if_neg h]
  simp [hst, hf]

theorem pollLoop_running {d : Nat} {a b : Option Str} {rest : List PollStep} {elapsed n : Nat}
    (h : ¬ elapsed > MAX_WAIT_TIME) (hst : pollDone (pyOr a b) = false)
    (hf : (pyOr a b == some failedStr) = false) :
    pollLoop (⟨d, .response a b⟩ :: rest) elapsed n =
      pollLoop rest (elapsed + d + POLL_INTERVAL) (n + 1) := by
  simp only [pollLoop]
  rw [if_neg h]
  simp [hst, hf]

/-- A script of non-terminal outcomes long enough to outlast the deadline
always ends in timeout, after at most one request per script entry. -/
theorem pollLoop_nonterminal :
    ∀ (script : List PollStep) (elapsed n : Nat),
      (∀ s ∈ script, stepTerminalB s = false) →
      MAX_WAIT_TIME < elapsed + POLL_INTERVAL * script.length →
      (pollLoop script elapsed n).1 = .timedOut ∧
        (pollLoop script elapsed n).2 ≤ n + script.length
  | [], elapsed, n, _, hlen => by
    have h : elapsed > MAX_WAIT_TIME := by simpa using hlen
    rw [pollLoop_timeout h]
    exact ⟨rfl, Nat.le_add_right n 0⟩
  | step :: rest, elapsed, n, hterm, hlen => by
    by_cases he : elapsed > MAX_WAIT_TIME
    · rw [pollLoop_timeout he]
      exact ⟨rfl, Nat.le_add_right n _⟩
    · obtain ⟨d, outc⟩ := step
      have hPI : POLL_INTERVAL = 2 := rfl
      have hlen' : MAX_WAIT_TIME < (elapsed + d + POLL_INTERVAL) + POLL_INTERVAL * rest.length := by
        rw [hPI] at hlen ⊢
        simp only [List.length_cons] at hlen
        omega
      cases outc with
      | reqError =>
        rw [pollLoop_reqError he]
        have := pollLoop_nonterminal rest (elapsed + d + POLL_INTERVAL) (n + 1)
          (fun s hs => hterm s (List.mem_cons.mpr (Or.inr hs))) hlen'
        refine ⟨this.1, this.2.trans ?_⟩
        simp only [List.length_cons]
        omega
      | response a b =>
        have hhead := hterm ⟨d, .response a b⟩ (List.mem_cons.mpr (Or.inl rfl))
        simp only [stepTerminalB, Bool.or_eq_false_iff] at hhead
        rw [pollLoop_running he hhead.1 hhead.2]
        have := pollLoop_nonterminal rest (elapsed + d + POLL_INTERVAL) (n + 1)
          (fun s hs => hterm s (List.mem_cons.mpr (Or.inr hs))) hlen'
        refine ⟨this.1, this.2.trans ?_⟩
        simp only [List.length_cons]
        omega

/-- A script reporting an in-progress state N times and then completion
performs exactly N+1 status requests and ends in the done state, provided
the deadline is not hit. -/
theorem pollLoop_replicate :
    ∀ (N : Nat) (elapsed n : Nat), elapsed + POLL_INTERVAL * N ≤ MAX_WAIT_TIME →
      pollLoop (List.replicate N runningStep ++ [doneStep]) elapsed n =
        (.taskDone, n + N + 1)
  | 0, elapsed, n, hle => by
    have he : ¬ elapsed > MAX_WAIT_TIME := by
      simp only [POLL_INTERVAL] at hle
      omega
    simp only [List.replicate_zero, List.nil_append]
    rw [show doneStep = ⟨0, .response (some doneStr) none⟩ from rfl]
    rw [pollLoop_done he (by decide)]
  | N + 1, elapsed, n, hle => by
    have hPI : POLL_INTERVAL = 2 := rfl
    have he : ¬ elapsed > MAX_WAIT_TIME := by
      rw [hPI] at hle
      simp only [MAX_WAIT_TIME] at hle ⊢
      omega
    rw [List.replicate_succ, List.cons_append]
    rw [show runningStep :: (List.replicate N runningStep ++ [doneStep]) =
      (⟨0, .response none (some runningStr)⟩ : PollStep) ::
        (List.replicate N runningStep ++ [doneStep]) from rfl]
    rw [pollLoop_running he (by decide) (by decide)]
    have hle' : (elapsed + 0 + POLL_INTERVAL) + POLL_INTERVAL * N ≤ MAX_WAIT_TIME := by
      rw [hPI] at hle ⊢
      omega
    rw [pollLoop_replicate N (elapsed + 0 + POLL_INTERVAL) (n + 1) hle']
    have : n + 1 + N + 1 = n + (N + 1) + 1 := by omega
    rw [this]

/-! ### Claim theorems -/

/-- C9: if the availability probe performed once at construction fails,
the cached enable flag is false, and every subsequent parse call
(synchronous or asynchronous) returns the empty Document immediately with
zero network requests; the probe failure is converted to a flag, never
surfaced as an error. -/
theorem probe_failure_inert :
    ping (.error ()) = false ∧
    (∀ (mk : Bool) (env : SyncEnv),
      stdParseIntoText (ping (.error ())) mk env = ⟨.ok Document.empty, 0⟩) ∧
    (∀ (mk : Bool) (env : CloudEnv),
      cloudParseIntoText (ping (.error ())) mk env = ⟨some Document.empty, 0, 0, 0⟩) := by
  refine ⟨rfl, ?_, ?_⟩
  · intro mk env
    rfl
  · intro mk env
    rfl

/-- C8: if the submission response carries no task identifier under either
the top-level task_id key or the nested data.task_id key (both absent or
empty), the asynchronous parse is immediately terminal: one submit
request, zero status requests, zero fetch requests, and the empty Document
is returned (the internal ValueError is caught at the top level). -/
theorem submit_without_task_id_terminal (mk : Bool) (env : CloudEnv) (resp : SubmitResp)
    (hsub : env.submit = .ok resp)
    (hid : optTruthy (pyOr resp.task_id resp.data_task_id) = false) :
    cloudParseIntoText true mk env = ⟨some Document.empty, 1, 0, 0⟩ := by
  unfold cloudParseIntoText
  rw [hsub]
  simp [hid]

/-- C8 witness: a concrete submission response with an absent top-level
task_id and an empty nested task_id is terminal after the submit request. -/
theorem submit_without_task_id_terminal_witness :
    cloudParseIntoText true false envC8w = ⟨some Document.empty, 1, 0, 0⟩ :=
  submit_without_task_id_terminal false envC8w ⟨none, some []⟩ rfl rfl

/-- C5: the rehosting pass is unchanged when every entry whose token
images/<path> does not occur in the (post-normalization) markdown is
removed from the input: such entries are never decoded (decode log),
never uploaded (upload log), and contribute nothing to the image map or
the replacement table of the resulting Document. -/
theorem rehost_skips_unreferenced (enc : Str → Str) (upl : Str → Str → Except Unit Str)
    (sp : Bool) (md : Str) (entries : List (Str × Str)) (acc : RehostAcc) :
    rehostLoop enc upl sp md entries acc =
      rehostLoop enc upl sp md
        (entries.filter (fun e => decide (imgTok e.1 <:+: md))) acc :=
  rehostLoop_filter enc upl sp md entries acc

/-- C1 counterexample: an environment in which the file_parse service call
succeeds and the HTML-to-markdown conversion raises; the synchronous
parse_into_text propagates the raised error to the caller instead of
returning a Document, because the conversion happens outside the
try/except block (mineru_parser.py lines 121-124). -/
theorem sync_conversion_error_propagates :
    (stdParseIntoText true true envC1).result = .error () := rfl

/-- C1 (amended): the asynchronous parse never propagates a raised error
(it returns a Document for every oracle behaviour); the synchronous parse
catches failures of the network call and response decoding, returning the
empty Document, but a raised error from the HTML-to-markdown conversion or
an image upload propagates to the caller: it returns a Document whenever
those two oracles never raise. -/
theorem parse_error_containment :
    (∀ (mk : Bool) (env : SyncEnv), env.fileParse = .error () →
      stdParseIntoText true mk env = ⟨.ok Document.empty, 1⟩) ∧
    (∀ (mk : Bool) (env : SyncEnv),
      (∀ s, env.markdownify s ≠ .error ()) →
      (∀ b e, env.uploadBytes b e ≠ .error ()) →
      ∃ d, (stdParseIntoText true mk env).result = .ok d) ∧
    (∀ (mk : Bool) (env : CloudEnv),
      (pollLoop env.pollScript 0 0).1 ≠ .exhausted →
      ∃ d, (cloudParseIntoText true mk env).result = some d) := by
  refine ⟨?_, ?_, ?_⟩
  · intro mk env h
    simp [stdParseIntoText, h]
  · intro mk env hm hu
    cases hfp : env.fileParse with
    | error e =>
      cases e
      exact ⟨Document.empty, by simp [stdParseIntoText, hfp]⟩
    | ok pair =>
      obtain ⟨md0, entries⟩ := pair
      cases hmk : (if mk then env.markdownify md0 else .ok md0) with
      | error e =>
        cases e
        exfalso
        cases mk with
        | true => exact hm md0 (by simpa using hmk)
        | false => simp at hmk
      | ok md =>
        obtain ⟨acc2, hacc⟩ :=
          rehostLoop_ok env.encodeImage env.uploadBytes true md hu entries RehostAcc.init
        exact ⟨⟨replacePath md acc2.replace, acc2.images⟩,
          by simp [stdParseIntoText, hfp, hmk, hacc]⟩
  · intro mk env hne
    cases hsub : env.submit with
    | error e =>
      cases e
      exact ⟨Document.empty, by simp [cloudParseIntoText, hsub]⟩
    | ok resp =>
      have hid2 : optTruthy (pyOr resp.task_id resp.data_task_id) = true ∨
          optTruthy (pyOr resp.task_id resp.data_task_id) = false := by
        cases optTruthy (pyOr resp.task_id resp.data_task_id) with
        | true => exact Or.inl rfl
        | false => exact Or.inr rfl
      rcases hid2 with hid | hid
      · rcases hpoll : pollLoop env.pollScript 0 0 with ⟨pr, n⟩
        cases pr with
        | exhausted =>
          exfalso
          apply hne
          rw [hpoll]
        | timedOut =>
          exact ⟨Document.empty, by simp [cloudParseIntoText, hsub, hid, hpoll]⟩
        | taskFailed =>
          exact ⟨Document.empty, by simp [cloudParseIntoText, hsub, hid, hpoll]⟩
        | taskDone =>
          cases hf : env.fetch with
          | error e =>
            cases e
            exact ⟨Document.empty, by simp [cloudParseIntoText, hsub, hid, hpoll, hf]⟩
          | ok fr =>
            cases hmk : (if mk then env.markdownify ((fr.result.getD fr.top).md_content.getD [])
                else .ok ((fr.result.getD fr.top).md_content.getD [])) with
            | error e =>
              cases e
              exact ⟨Document.empty, by simp [cloudParseIntoText, hsub, hid, hpoll, hf, hmk]⟩
            | ok md =>
              cases hre : rehostLoop env.encodeImage env.uploadBytes env.storagePresent md
                  ((fr.result.getD fr.top).images.getD []) RehostAcc.init with
              | error e =>
                cases e
                exact ⟨Document.empty,
                  by simp [cloudParseIntoText, hsub, hid, hpoll, hf, hmk, hre]⟩
              | ok acc =>
                exact ⟨⟨if acc.replace = [] then md else replacePath md acc.replace, acc.images⟩,
                  by simp [cloudParseIntoText, hsub, hid, hpoll, hf, hmk, hre]⟩
      · exact ⟨Document.empty, by simp [cloudParseIntoText, hsub, hid]⟩

/-- C1 witness: the amended behaviour at concrete environments: a failed
service call yields the empty Document; with never-raising conversion and
upload oracles the synchronous parse returns a Document; the asynchronous
parse returns a Document. -/
theorem parse_error_containment_witness :
    stdParseIntoText true false envC1a = ⟨.ok Document.empty, 1⟩ ∧
    (∃ d, (stdParseIntoText true false envC1b).result = .ok d) ∧
    (∃ d, (cloudParseIntoText true false envC1c).result = some d) := by
  refine ⟨parse_error_containment.1 false envC1a rfl,
    parse_error_containment.2.1 false envC1b ?_ ?_,
    parse_error_containment.2.2 false envC1c ?_⟩
  · intro s
    simp [envC1b]
  · intro b e
    simp [envC1b]
  · decide

/-- C2 counterexample: two images both referenced in the markdown; the
upload of the second raises.  The asynchronous parse returns the EMPTY
Document: the content is empty, so the failed image's original token
images/b does not occur in it at all (let alone verbatim where it was),
and the first image's successful rehosting is discarded (empty image map)
rather than unaffected. -/
theorem upload_failure_counterexample :
    cloudParseIntoText true false envC2 = ⟨some Document.empty, 1, 1, 1⟩ ∧
    ¬ (imgTok strB <:+: Document.empty.content) ∧ Document.empty.images = [] := by
  refine ⟨by decide, by decide, rfl⟩

/-- C2 (amended): a per-image upload failure is not isolated to that
image; it aborts the whole parse: the synchronous parser propagates the
raised exception to its caller, and the asynchronous parser catches it at
the top level and returns the empty Document, discarding every other
image's rehosting.  No partially substituted content is ever returned,
because substitution only runs after the loop completes. -/
theorem upload_failure_aborts :
    (∀ (mk : Bool) (env : SyncEnv) (md0 md : Str) (entries : List (Str × Str)),
      env.fileParse = .ok (md0, entries) →
      (if mk then env.markdownify md0 else .ok md0) = .ok md →
      rehostLoop env.encodeImage env.uploadBytes true md entries RehostAcc.init = .error () →
      stdParseIntoText true mk env = ⟨.error (), 1⟩) ∧
    (∀ (mk : Bool) (env : CloudEnv) (resp : SubmitResp) (n : Nat) (fr : FetchResp) (md : Str),
      env.submit = .ok resp →
      optTruthy (pyOr resp.task_id resp.data_task_id) = true →
      pollLoop env.pollScript 0 0 = (.taskDone, n) →
      env.fetch = .ok fr →
      (if mk then env.markdownify ((fr.result.getD fr.top).md_content.getD [])
        else .ok ((fr.result.getD fr.top).md_content.getD [])) = .ok md →
      rehostLoop env.encodeImage env.uploadBytes env.storagePresent md
        ((fr.result.getD fr.top).images.getD []) RehostAcc.init = .error () →
      cloudParseIntoText true mk env = ⟨some Document.empty, 1, n, 1⟩) := by
  constructor
  · intro mk env md0 md entries hfp hmk hre
    simp [stdParseIntoText, hfp, hmk, hre]
  · intro mk env resp n fr md hsub hid hpoll hf hmk hre
    simp [cloudParseIntoText, hsub, hid, hpoll, hf, hmk, hre]

/-- C2 witness: the amended behaviour at the concrete two-image
environments: the synchronous parse propagates the upload error, the
asynchronous parse returns the empty Document. -/
theorem upload_failure_aborts_witness :
    stdParseIntoText true false envC2a = ⟨.error (), 1⟩ ∧
    cloudParseIntoText true false envC2 = ⟨some Document.empty, 1, 1, 1⟩ := by
  constructor
  · exact upload_failure_aborts.1 false envC2a mdAB mdAB entriesC2 rfl rfl rfl
  · exact upload_failure_aborts.2 false envC2 respOK 1 ⟨none, ⟨some mdAB, some entriesC2⟩⟩
      mdAB rfl rfl (by decide) rfl rfl rfl

/-- After a successful submit and a poll ending in the done state, the
asynchronous parse issues exactly one submit, n status requests and one
fetch, whatever the fetch, conversion and rehost oracles do. -/
theorem cloudParse_done_trace (mk : Bool) (env : CloudEnv) (resp : SubmitResp) (n : Nat)
    (hsub : env.submit = .ok resp)
    (hid : optTruthy (pyOr resp.task_id resp.data_task_id) = true)
    (hpoll : pollLoop env.pollScript 0 0 = (.taskDone, n)) :
    ∃ d, cloudParseIntoText true mk env = ⟨some d, 1, n, 1⟩ := by
  cases hf : env.fetch with
  | error e =>
    cases e
    exact ⟨Document.empty, by simp [cloudParseIntoText, hsub, hid, hpoll, hf]⟩
  | ok fr =>
    cases hmk : (if mk then env.markdownify ((fr.result.getD fr.top).md_content.getD [])
        else .ok ((fr.result.getD fr.top).md_content.getD [])) with
    | error e =>
      cases e
      exact ⟨Document.empty, by simp [cloudParseIntoText, hsub, hid, hpoll, hf, hmk]⟩
    | ok md =>
      cases hre : rehostLoop env.encodeImage env.uploadBytes env.storagePresent md
          ((fr.result.getD fr.top).images.getD []) RehostAcc.init with
      | error e =>
        cases e
        exact ⟨Document.empty, by simp [cloudParseIntoText, hsub, hid, hpoll, hf, hmk, hre]⟩
      | ok acc =>
        exact ⟨⟨if acc.replace = [] then md else replacePath md acc.replace, acc.images⟩,
          by simp [cloudParseIntoText, hsub, hid, hpoll, hf, hmk, hre]⟩

/-- After a successful submit, a poll script of non-terminal outcomes long
enough to outlast the deadline makes the parse time out: the empty
Document is returned, no fetch is issued, and at most one status request
per script entry was made. -/
theorem cloudParse_nonterminal_empty (mk : Bool) (env : CloudEnv) (resp : SubmitResp)
    (hsub : env.submit = .ok resp)
    (hid : optTruthy (pyOr resp.task_id resp.data_task_id) = true)
    (hterm : ∀ s ∈ env.pollScript, stepTerminalB s = false)
    (hlen : MAX_WAIT_TIME < POLL_INTERVAL * env.pollScript.length) :
    (cloudParseIntoText true mk env).result = some Document.empty ∧
      (cloudParseIntoText true mk env).nFetch = 0 ∧
      (cloudParseIntoText true mk env).nStatus ≤ env.pollScript.length := by
  have h := pollLoop_nonterminal env.pollScript 0 0 hterm (by simpa using hlen)
  rcases hpoll : pollLoop env.pollScript 0 0 with ⟨pr, n⟩
  rw [hpoll] at h
  obtain ⟨h1, h2⟩ := h
  simp only at h1 h2
  subst h1
  refine ⟨?_, ?_, ?_⟩
  · simp [cloudParseIntoText, hsub, hid, hpoll]
  · simp [cloudParseIntoText, hsub, hid, hpoll]
  · have : (cloudParseIntoText true mk env).nStatus = n := by
      simp [cloudParseIntoText, hsub, hid, hpoll]
    rw [this]
    simpa using h2

/-- C3: the fetch request is issued only after a status poll observes a
completion status; a service reporting an in-progress status N times and
then a completion status yields exactly N+1 status requests, one fetch and
one submit; and in every run of the asynchronous parse the submit and
fetch requests are each attempted at most once (never retried). -/
theorem poll_counts_exact :
    (∀ (N : Nat) (mk : Bool) (env : CloudEnv) (resp : SubmitResp),
      N ≤ 300 →
      env.submit = .ok resp →
      optTruthy (pyOr resp.task_id resp.data_task_id) = true →
      env.pollScript = List.replicate N runningStep ++ [doneStep] →
      (cloudParseIntoText true mk env).nStatus = N + 1 ∧
        (cloudParseIntoText true mk env).nFetch = 1 ∧
        (cloudParseIntoText true mk env).nSubmit = 1) ∧
    (∀ (enable mk : Bool) (env : CloudEnv),
      (cloudParseIntoText enable mk env).nSubmit ≤ 1 ∧
        (cloudParseIntoText enable mk env).nFetch ≤ 1) ∧
    (∀ (enable mk : Bool) (env : CloudEnv),
      (cloudParseIntoText enable mk env).nFetch ≠ 0 →
      (pollLoop env.pollScript 0 0).1 = .taskDone) := by
  have key : ∀ (enable mk : Bool) (env : CloudEnv),
      (cloudParseIntoText enable mk env).nSubmit ≤ 1 ∧
        (cloudParseIntoText enable mk env).nFetch ≤ 1 ∧
        ((cloudParseIntoText enable mk env).nFetch ≠ 0 →
          (pollLoop env.pollScript 0 0).1 = .taskDone) := by
    intro enable mk env
    cases enable with
    | false =>
      refine ⟨by simp [cloudParseIntoText], by simp [cloudParseIntoText], fun h => ?_⟩
      exact absurd (show (cloudParseIntoText false mk env).nFetch = 0 by
        simp [cloudParseIntoText]) h
    | true =>
      cases hsub : env.submit with
      | error e =>
        cases e
        refine ⟨?_, ?_, ?_⟩ <;> simp [cloudParseIntoText, hsub]
      | ok resp =>
        cases hid : optTruthy (pyOr resp.task_id resp.data_task_id) with
        | false =>
          refine ⟨?_, ?_, ?_⟩ <;> simp [cloudParseIntoText, hsub, hid]
        | true =>
          rcases hpoll : pollLoop env.pollScript 0 0 with ⟨pr, n⟩
          cases pr with
          | taskDone =>
            obtain ⟨d, hd⟩ := cloudParse_done_trace mk env resp n hsub hid hpoll
            rw [hd]
            exact ⟨by simp, by simp, fun _ => by simp [hpoll]⟩
          | taskFailed =>
            refine ⟨?_, ?_, ?_⟩ <;> simp [cloudParseIntoText, hsub, hid, hpoll]
          | timedOut =>
            refine ⟨?_, ?_, ?_⟩ <;> simp [cloudParseIntoText, hsub, hid, hpoll]
          | exhausted =>
            refine ⟨?_, ?_, ?_⟩ <;> simp [cloudParseIntoText, hsub, hid, hpoll]
  refine ⟨?_, fun enable mk env => ⟨(key enable mk env).1, (key enable mk env).2.1⟩,
    fun enable mk env => (key enable mk env).2.2⟩
  intro N mk env resp hN hsub hid hscript
  have hpoll : pollLoop env.pollScript 0 0 = (.taskDone, 0 + N + 1) := by
    rw [hscript]
    exact pollLoop_replicate N 0 0 (by simp only [POLL_INTERVAL, MAX_WAIT_TIME]; omega)
  obtain ⟨d, hd⟩ := cloudParse_done_trace mk env resp (0 + N + 1) hsub hid hpoll
  rw [hd]
  refine ⟨by simp, rfl, rfl⟩

/-- C3 witness: a service reporting an in-progress status twice and then
done yields exactly three status requests, one fetch and one submit. -/
theorem poll_counts_exact_witness :
    (cloudParseIntoText true false envC3w).nStatus = 3 ∧
    (cloudParseIntoText true false envC3w).nFetch = 1 ∧
    (cloudParseIntoText true false envC3w).nSubmit = 1 := by
  have h := poll_counts_exact.1 2 false envC3w respOK (by omega) rfl rfl rfl
  simpa using h

/-- C4: for every poll-outcome sequence with no terminal status, the
asynchronous parse terminates: once elapsed time exceeds MAX_WAIT_TIME
(600 seconds) the check at the top of the iteration fires, the internal
TimeoutError is caught, and the public call returns the empty Document
with no fetch and at most one status request per scripted outcome; a
transient status-request failure causes no state transition and is retried
after the same fixed POLL_INTERVAL added to the elapsed time (counted only
against the overall deadline, there is no separate retry budget). -/
theorem poll_timeout_terminates :
    (∀ (mk : Bool) (env : CloudEnv) (resp : SubmitResp),
      env.submit = .ok resp →
      optTruthy (pyOr resp.task_id resp.data_task_id) = true →
      (∀ s ∈ env.pollScript, stepTerminalB s = false) →
      MAX_WAIT_TIME < POLL_INTERVAL * env.pollScript.length →
      (cloudParseIntoText true mk env).result = some Document.empty ∧
        (cloudParseIntoText true mk env).nFetch = 0 ∧
        (cloudParseIntoText true mk env).nStatus ≤ env.pollScript.length) ∧
    (∀ (d : Nat) (rest : List PollStep) (elapsed n : Nat),
      ¬ elapsed > MAX_WAIT_TIME →
      pollLoop (⟨d, .reqError⟩ :: rest) elapsed n =
        pollLoop rest (elapsed + d + POLL_INTERVAL) (n + 1)) := by
  constructor
  · intro mk env resp hsub hid hterm hlen
    exact cloudParse_nonterminal_empty mk env resp hsub hid hterm hlen
  · intro d rest elapsed n h
    exact pollLoop_reqError h

/-- C4 witness: a script of 301 in-progress responses exceeds the 600
second deadline at 2 seconds per iteration; the parse returns the empty
Document without fetching, and a concrete transient failure is retried
with the interval added to the elapsed time. -/
theorem poll_timeout_terminates_witness :
    ((cloudParseIntoText true false envC4w).result = some Document.empty ∧
      (cloudParseIntoText true false envC4w).nFetch = 0) ∧
    pollLoop [⟨5, .reqError⟩] 0 0 = pollLoop [] 7 1 := by
  constructor
  · have h := poll_timeout_terminates.1 false envC4w respOK rfl rfl ?_ ?_
    · exact ⟨h.1, h.2.1⟩
    · intro s hs
      have hs2 : s ∈ List.replicate 301 runningStep := hs
      rw [List.eq_of_mem_replicate hs2]
      decide
    · have h301 : envC4w.pollScript = List.replicate 301 runningStep := rfl
      rw [h301, List.length_replicate]
      decide
  · have h := poll_timeout_terminates.2 5 [] 0 0 (by decide)
    simpa using h

/-- C10: every failed status request — a connection error, an undecodable
body, or a definitive non-success HTTP status such as 404 (raise_for_status
raises HTTPError, a RequestException, landing in the same except branch) —
is transient: it causes no state transition and is retried after
POLL_INTERVAL; no single failure is terminal on its own (a failure
followed by a completion status still reaches the done state), and a
status endpoint that fails on every request keeps the task polling until
the 600-second deadline, after which the call returns the empty Document
having issued no fetch. -/
theorem status_failures_transient :
    (∀ (d : Nat) (rest : List PollStep) (elapsed n : Nat),
      ¬ elapsed > MAX_WAIT_TIME →
      pollLoop (⟨d, .reqError⟩ :: rest) elapsed n =
        pollLoop rest (elapsed + d + POLL_INTERVAL) (n + 1)) ∧
    (∀ (d : Nat), d + POLL_INTERVAL ≤ MAX_WAIT_TIME →
      pollLoop [⟨d, .reqError⟩, doneStep] 0 0 = (.taskDone, 2)) ∧
    (∀ (mk : Bool) (env : CloudEnv) (resp : SubmitResp),
      env.submit = .ok resp →
      optTruthy (pyOr resp.task_id resp.data_task_id) = true →
      (∀ s ∈ env.pollScript, s.outcome = .reqError) →
      MAX_WAIT_TIME < POLL_INTERVAL * env.pollScript.length →
      (cloudParseIntoText true mk env).result = some Document.empty ∧
        (cloudParseIntoText true mk env).nFetch = 0) := by
  refine ⟨fun d rest elapsed n h => pollLoop_reqError h, ?_, ?_⟩
  · intro d hd
    rw [pollLoop_reqError (by decide)]
    rw [show doneStep = (⟨0, .response (some doneStr) none⟩ : PollStep) from rfl]
    rw [pollLoop_done ?_ (by decide)]
    simp only [MAX_WAIT_TIME, POLL_INTERVAL] at hd ⊢
    omega
  · intro mk env resp hsub hid herr hlen
    have hterm : ∀ s ∈ env.pollScript, stepTerminalB s = false := by
      intro s hs
      obtain ⟨d, o⟩ := s
      have := herr ⟨d, o⟩ hs
      simp only at this
      rw [this]
      rfl
    have h := cloudParse_nonterminal_empty mk env resp hsub hid hterm hlen
    exact ⟨h.1, h.2.1⟩

/-- C10 witness: concrete instances of the three behaviours: a failed
status request is retried with the interval added, a single failure
followed by done still completes, and 301 consecutive failures end in the
empty Document without a fetch. -/
theorem status_failures_transient_witness :
    pollLoop [⟨3, .reqError⟩] 0 0 = pollLoop [] 5 1 ∧
    pollLoop [⟨0, .reqError⟩, doneStep] 0 0 = (.taskDone, 2) ∧
    ((cloudParseIntoText true false envC10w).result = some Document.empty ∧
      (cloudParseIntoText true false envC10w).nFetch = 0) := by
  refine ⟨?_, status_failures_transient.2.1 0 (by decide), ?_⟩
  · have h := status_failures_transient.1 3 [] 0 0 (by decide)
    simpa using h
  · refine status_failures_transient.2.2 false envC10w respOK rfl rfl ?_ ?_
    · intro s hs
      have hs2 : s ∈ List.replicate 301 errStep := hs
      rw [List.eq_of_mem_replicate hs2]
      rfl
    · have h301 : envC10w.pollScript = List.replicate 301 errStep := rfl
      rw [h301, List.length_replicate]
      decide

/-- C7: per-entry envelope and decode failures never abort the batch: an
entry whose dataURI envelope has no regex match is skipped (the loop
output on the remaining entries is unchanged), an entry whose base64
decode yields empty bytes is skipped after the decode attempt, and in the
concrete three-image run with one malformed envelope the other two images
are rehosted and the final image map has exactly two entries. -/
theorem rehost_skips_malformed :
    (∀ (enc : Str → Str) (upl : Str → Str → Except Unit Str) (sp : Bool)
        (md p b : Str) (rest : List (Str × Str)) (acc : RehostAcc),
      imgTok p <:+: md → base64Match b = none →
      rehostLoop enc upl sp md ((p, b) :: rest) acc = rehostLoop enc upl sp md rest acc) ∧
    (∀ (enc : Str → Str) (upl : Str → Str → Except Unit Str) (sp : Bool)
        (md p b ext pay : Str) (rest : List (Str × Str)) (acc : RehostAcc),
      imgTok p <:+: md → base64Match b = some (ext, pay) → enc pay = [] →
      rehostLoop enc upl sp md ((p, b) :: rest) acc =
        rehostLoop enc upl sp md rest { acc with decodes := acc.decodes ++ [pay] }) ∧
    (stdParseIntoText true false envC7).result = .ok ⟨contentC7, imagesC7⟩ ∧
    imagesC7.length = 2 := by
  refine ⟨fun enc upl sp md p b rest acc h hb => rehostLoop_cons_nomatch h hb,
    fun enc upl sp md p b ext pay rest acc h hb hd => rehostLoop_cons_decfail h hb hd,
    ?_, rfl⟩
  simp +decide [stdParseIntoText, envC7, mdABC, entriesC7, strA, strB, strC, dataA, dataC,
    notDataUri, encId, uplU, base64Match, dataImagePrefix, base64Marker, wordChar,
    imgTok, imagesSlash, rehostLoop, dictInsert, RehostAcc.init, replacePath,
    replaceList, payloadA, payloadC, contentC7, imagesC7]

/-- C7 witness: the two skip rules applied at concrete inputs: a malformed
envelope entry referenced by the markdown is skipped, and an entry whose
decode returns empty bytes is skipped after logging the decode. -/
theorem rehost_skips_malformed_witness :
    rehostLoop encId uplU true mdABC [(strB, notDataUri)] RehostAcc.init =
      rehostLoop encId uplU true mdABC [] RehostAcc.init ∧
    rehostLoop (fun _ => []) uplU true mdABC [(strA, dataA)] RehostAcc.init =
      rehostLoop (fun _ => []) uplU true mdABC []
        { RehostAcc.init with decodes := RehostAcc.init.decodes ++ [payloadA] } := by
  constructor
  · exact rehost_skips_malformed.1 encId uplU true mdABC strB notDataUri [] RehostAcc.init
      (by decide) (by decide)
  · exact rehost_skips_malformed.2.1 (fun _ => []) uplU true mdABC strA dataA extPng
      payloadA [] RehostAcc.init (by decide) (by decide) rfl

/-- C6 counterexample: two referenced images whose internal-path tokens
overlap (images/a is a prefix of images/ab).  Both are uploaded and both
URLs are recorded as keys of the returned image map, but the substitution
pass rewrites the occurrence of images/a first, destroying the occurrence
of images/ab, so the key urlB does not occur in the returned content. -/
theorem overlapping_tokens_counterexample :
    (stdParseIntoText true false envC6).result =
      .ok ⟨contentC6, [(urlA, payloadA), (urlB, payloadB)]⟩ ∧
    ¬ (urlB <:+: contentC6) := by
  constructor
  · simp +decide [stdParseIntoText, envC6, mdC6, entriesC6, strA, strAB, dataA, dataB,
      encId, uplC6, base64Match, dataImagePrefix, base64Marker, wordChar, imgTok,
      imagesSlash, rehostLoop, dictInsert, RehostAcc.init, replacePath, replaceList,
      payloadA, payloadB, urlA, urlB, contentC6]
  · decide

/-- When the rehost loop succeeds from the empty accumulator with distinct
entry paths and the resulting replacement table is pairwise independent
(keys with keys, keys with values), every key of the resulting image map
occurs in the substituted markdown and no internal-path token of the
table still occurs there. -/
theorem rehost_acc_correct (enc : Str → Str) (upl : Str → Str → Except Unit Str)
    (sp : Bool) (md : Str) (entries : List (Str × Str)) (acc : RehostAcc)
    (hre : rehostLoop enc upl sp md entries RehostAcc.init = .ok acc)
    (hnodup : (entries.map Prod.fst).Nodup)
    (hpw : acc.replace.Pairwise (fun a b => indep a.1 b.1))
    (hkv2 : ∀ a ∈ acc.replace, ∀ b ∈ acc.replace, indep a.1 b.2) :
    (∀ iv ∈ acc.images, iv.1 <:+: replacePath md acc.replace) ∧
      (∀ kv ∈ acc.replace, ¬ kv.1 <:+: replacePath md acc.replace) := by
  have hocc : ∀ kv ∈ acc.replace, kv.1 <:+: md := by
    intro kv hkv
    rcases rehostLoop_replace_occurs enc upl sp md entries RehostAcc.init acc hre kv hkv
      with h | h
    · exact absurd h (by simp [RehostAcc.init])
    · exact h
  have hlinked : accLinked acc := by
    refine rehostLoop_linked enc upl sp md entries RehostAcc.init acc ?_ hnodup ?_ hre
    · intro e he kv hkv
      exact absurd hkv (by simp [RehostAcc.init])
    · intro iv hiv
      exact absurd hiv (by simp [RehostAcc.init])
  have hspec := replacePath_spec acc.replace md hpw hkv2 hocc
  constructor
  · intro iv hiv
    obtain ⟨kv, hkvmem, hkveq⟩ := hlinked iv hiv
    rw [← hkveq]
    exact (hspec kv hkvmem).1
  · intro kv hkv
    exact (hspec kv hkv).2

/-- C6 (amended): after a parse in which rehosting succeeds, every key of
the returned image map is a URL occurring in the returned content, and no
rehosted internal-path token still occurs there, PROVIDED the entry paths
are distinct and the internal-path tokens and rehosted URLs are pairwise
non-overlapping (no such string occurs inside another and no nonempty
suffix of one is a prefix of another); without that proviso the claim
fails (see the counterexample with overlapping tokens).  The substitution
is a single pass applied after all uploads. -/
theorem rehost_urls_in_content :
    (∀ (mk : Bool) (env : SyncEnv) (md0 md : Str) (entries : List (Str × Str))
        (acc : RehostAcc),
      env.fileParse = .ok (md0, entries) →
      (if mk then env.markdownify md0 else .ok md0) = .ok md →
      rehostLoop env.encodeImage env.uploadBytes true md entries RehostAcc.init = .ok acc →
      (entries.map Prod.fst).Nodup →
      acc.replace.Pairwise (fun a b => indep a.1 b.1) →
      (∀ a ∈ acc.replace, ∀ b ∈ acc.replace, indep a.1 b.2) →
      stdParseIntoText true mk env = ⟨.ok ⟨replacePath md acc.replace, acc.images⟩, 1⟩ ∧
        (∀ iv ∈ acc.images, iv.1 <:+: replacePath md acc.replace) ∧
        (∀ kv ∈ acc.replace, ¬ kv.1 <:+: replacePath md acc.replace)) ∧
    (∀ (mk : Bool) (env : CloudEnv) (resp : SubmitResp) (n : Nat) (fr : FetchResp)
        (md : Str) (acc : RehostAcc),
      env.submit = .ok resp →
      optTruthy (pyOr resp.task_id resp.data_task_id) = true →
      pollLoop env.pollScript 0 0 = (.taskDone, n) →
      env.fetch = .ok fr →
      (if mk then env.markdownify ((fr.result.getD fr.top).md_content.getD [])
        else .ok ((fr.result.getD fr.top).md_content.getD [])) = .ok md →
      rehostLoop env.encodeImage env.uploadBytes env.storagePresent md
        ((fr.result.getD fr.top).images.getD []) RehostAcc.init = .ok acc →
      ((((fr.result.getD fr.top).images.getD []).map Prod.fst)).Nodup →
      acc.replace.Pairwise (fun a b => indep a.1 b.1) →
      (∀ a ∈ acc.replace, ∀ b ∈ acc.replace, indep a.1 b.2) →
      cloudParseIntoText true mk env =
          ⟨some ⟨replacePath md acc.replace, acc.images⟩, 1, n, 1⟩ ∧
        (∀ iv ∈ acc.images, iv.1 <:+: replacePath md acc.replace) ∧
        (∀ kv ∈ acc.replace, ¬ kv.1 <:+: replacePath md acc.replace)) := by
  constructor
  · intro mk env md0 md entries acc hfp hmk hre hnodup hpw hkv2
    have hcore := rehost_acc_correct env.encodeImage env.uploadBytes true md entries acc
      hre hnodup hpw hkv2
    refine ⟨?_, hcore.1, hcore.2⟩
    simp [stdParseIntoText, hfp, hmk, hre]
  · intro mk env resp n fr md acc hsub hid hpoll hf hmk hre hnodup hpw hkv2
    have hcore := rehost_acc_correct env.encodeImage env.uploadBytes env.storagePresent md
      ((fr.result.getD fr.top).images.getD []) acc hre hnodup hpw hkv2
    refine ⟨?_, hcore.1, hcore.2⟩
    by_cases hnil : acc.replace = []
    · simp [cloudParseIntoText, hsub, hid, hpoll, hf, hmk, hre, hnil, replacePath]
    · simp [cloudParseIntoText, hsub, hid, hpoll, hf, hmk, hre, hnil]

/-- C6 witness: the amended behaviour at a concrete well-separated
environment, for both parsers: the rehosted URL occurs in the returned
content and the internal-path token no longer occurs. -/
theorem rehost_urls_in_content_witness :
    (urlW <:+: replacePath mdW accW.replace ∧
      ¬ (imgTok strA <:+: replacePath mdW accW.replace)) ∧
    cloudParseIntoText true false envC6wc =
      ⟨some ⟨replacePath mdW accW.replace, accW.images⟩, 1, 1, 1⟩ := by
  have h1 := rehost_urls_in_content.1 false envC6w mdW mdW entriesW accW
    rfl rfl rfl (by decide) (by decide) (by decide)
  have h2 := rehost_urls_in_content.2 false envC6wc respOK 1
    ⟨none, ⟨some mdW, some entriesW⟩⟩ mdW accW
    rfl rfl (by decide) rfl rfl rfl (by decide) (by decide) (by decide)
  exact ⟨⟨h1.2.1 (urlW, payloadA) (by decide), h1.2.2 (imgTok strA, urlW) (by decide)⟩,
    h2.1⟩
